import Mathlib

/-!
Verification of the pymegablast pipeline.

A shallow embedding of `pymegablast.py` (a sliding-window FASTA splitter, a
megablast invoker, a hit-count aggregator and a final-report generator),
together with theorems settling the specification claims about it.

Conventions:
* A Biopython `SeqRecord` is modelled by `SeqRecord` below: the residue
  string is a `List Char`, the identifier and the free-text description are
  `String`s.
* Raw byte streams (the captured standard output of the external tool, the
  copied input file) are `List Char`.
* Python `str(n)` on a number is Lean `toString`, which renders the same
  decimal digits.
* The single exception type `ProgramError` of the script, plus the
  `IndexError` that `parse_results` can raise, are the two constructors of
  `PyError`; fallible steps return `Except PyError α`.
-/

namespace Pymegablast

/-- A Biopython sequence record as used by the script: identifier,
description and residue string. -/
structure SeqRecord where
  id : String
  description : String
  seq : List Char
deriving DecidableEq, Repr

/-- The two kinds of exception relevant to the script: its own
`ProgramError` (carrying a message) and the built-in `IndexError` that
`parse_results` can raise.  `main` catches only `ProgramError` (and
`KeyboardInterrupt`). -/
inductive PyError where
  | programError : String → PyError
  | indexError : PyError
deriving DecidableEq, Repr

/-- Holds (as `true`) exactly on the script's own error type, the one `main` converts
into an argparse error message; an uncaught `IndexError` is not of this
kind. -/
def PyError.isProgramError : PyError → Bool
  | .programError _ => true
  | .indexError => false

/-! ## Sequence Windower (`split_fasta_sequences`, lines 185-218)

The loop body for one record `seq`: if `len(seq) <= window_length` the
record is appended unchanged; otherwise for `i in xrange(0, len(seq) -
window_length + 1)` the counter `nb` becomes `i + 1` and the slice
`seq[i:i+window_length]` is appended with `_<nb>` added to its identifier
and `, window <nb>` added to its description.  Biopython record slicing
keeps the identifier and the description, so the window starts from the
original ones.  The python slice `seq[i:i+w]` with `0 ≤ i` and `i + w ≤
len(seq)` is `(seq.drop i).take w`.  `window_length` is a python `int`, but
the only calls are made after `check_args` has ruled out negative values,
so the function is embedded over `Nat`. -/

/-- The windows generated from one record: the body of the `for seq in
SeqIO.parse(...)` loop of `split_fasta_sequences`. -/
def splitOne (windowLength : Nat) (r : SeqRecord) : List SeqRecord :=
  if r.seq.length ≤ windowLength then [r]
  else
    (List.range (r.seq.length - windowLength + 1)).map fun i =>
      { id := r.id ++ "_" ++ toString (i + 1)
        description := r.description ++ ", window " ++ toString (i + 1)
        seq := (r.seq.drop i).take windowLength }

/-- The function `split_fasta_sequences`: the full `sequences` list
written to the output file, obtained by concatenating the windows of
every input record in input order. -/
def splitFastaSequences (windowLength : Nat) (records : List SeqRecord) :
    List SeqRecord :=
  records.flatMap (splitOne windowLength)

/-! ### Decimal rendering

`str(nb)` in python and `toString nb` in Lean both render the decimal
digits of `nb` without leading zeros.  To reason about the generated
identifiers we relate Lean's fuel-based `Nat.toDigitsCore` to a direct
recursion `natDigits` and prove the rendering injective via the evaluation
map `digitsVal`. -/

/-- The decimal digit characters of `n`, most significant first. -/
def natDigits (n : Nat) : List Char :=
  if _h : n < 10 then [Nat.digitChar n]
  else natDigits (n / 10) ++ [Nat.digitChar (n % 10)]
termination_by n
decreasing_by exact Nat.div_lt_self (by omega) (by omega)

/-- Numeric value of a decimal digit character (10 on anything else). -/
def digitVal (c : Char) : Nat :=
  if c = '0' then 0 else
  if c = '1' then 1 else
  if c = '2' then 2 else
  if c = '3' then 3 else
  if c = '4' then 4 else
  if c = '5' then 5 else
  if c = '6' then 6 else
  if c = '7' then 7 else
  if c = '8' then 8 else
  if c = '9' then 9 else 10

/-- The number denoted by a list of decimal digit characters. -/
def digitsVal (l : List Char) : Nat :=
  l.foldl (fun acc c => 10 * acc + digitVal c) 0

theorem digitVal_digitChar (m : Nat) (h : m < 10) :
    digitVal (Nat.digitChar m) = m := by
  interval_cases m <;> decide

theorem natDigits_foldl (n : Nat) : ∀ a : Nat,
    (natDigits n).foldl (fun acc c => 10 * acc + digitVal c) a =
      a * 10 ^ (natDigits n).length + n := by
  induction n using Nat.strong_induction_on with
  | _ n ih =>
    intro a
    by_cases h : n < 10
    · rw [natDigits]
      simp [h, digitVal_digitChar n h]
      omega
    · rw [natDigits]
      simp only [h, dite_false, List.foldl_append, List.foldl_cons,
        List.foldl_nil, List.length_append, List.length_singleton]
      rw [ih (n / 10) (Nat.div_lt_self (by omega) (by omega)) a]
      rw [digitVal_digitChar (n % 10) (Nat.mod_lt n (by omega))]
      rw [pow_succ]
      have hcomm : a * (10 ^ (natDigits (n / 10)).length * 10) =
          10 * (a * 10 ^ (natDigits (n / 10)).length) := by ring
      rw [hcomm]
      generalize a * 10 ^ (natDigits (n / 10)).length = A
      omega

theorem digitsVal_natDigits (n : Nat) : digitsVal (natDigits n) = n := by
  have := natDigits_foldl n 0
  simpa [digitsVal] using this

theorem natDigits_injective : Function.Injective natDigits := by
  intro m n h
  have := congrArg digitsVal h
  rwa [digitsVal_natDigits, digitsVal_natDigits] at this

theorem toDigitsCore_eq_natDigits (fuel : Nat) : ∀ (n : Nat) (ds : List Char),
    n < fuel → Nat.toDigitsCore 10 fuel n ds = natDigits n ++ ds := by
  induction fuel with
  | zero => intro n ds h; omega
  | succ f ih =>
    intro n ds h
    rw [Nat.toDigitsCore]
    by_cases h10 : n / 10 = 0
    · have hn : n < 10 := by omega
      simp [h10, natDigits, hn, Nat.mod_eq_of_lt hn]
    · have hge : 10 ≤ n := by omega
      have hlt : n / 10 < f := by omega
      simp only [h10, ite_false]
      rw [ih (n / 10) _ hlt]
      have hsplit : natDigits n = natDigits (n / 10) ++ [Nat.digitChar (n % 10)] := by
        rw [natDigits]
        simp [show ¬ n < 10 by omega]
      rw [hsplit]
      simp

theorem natRepr_data (n : Nat) : (Nat.repr n).data = natDigits n := by
  rw [Nat.repr]
  show (Nat.toDigitsCore 10 (n + 1) n []).asString.data = natDigits n
  rw [toDigitsCore_eq_natDigits (n + 1) n [] (by omega)]
  simp [List.asString]

theorem natRepr_injective {m n : Nat} (h : Nat.repr m = Nat.repr n) :
    m = n := by
  apply natDigits_injective
  rw [← natRepr_data, ← natRepr_data, h]

/-- Cancel a common prefix in front of two rendered numbers. -/
theorem append_toString_nat_inj (x s : String) {m n : Nat}
    (h : x ++ s ++ toString m = x ++ s ++ toString n) : m = n := by
  have hd := congrArg String.data h
  simp only [String.data_append, List.append_assoc] at hd
  have h1 := List.append_cancel_left hd
  have h2 := List.append_cancel_left h1
  exact natRepr_injective (String.ext h2)

/-- C5: For every input sequence whose length is at most the window
length `w`, the Sequence Windower passes the record through unchanged:
identical residue string, identical identifier, identical description. -/
theorem splitOne_short_is_noop (w : Nat) (r : SeqRecord)
    (h : r.seq.length ≤ w) : splitOne w r = [r] := by
  simp [splitOne, h]

/-- Witness for C5 at a concrete record of length 2 with window length 3. -/
theorem splitOne_short_is_noop_witness :
    (SeqRecord.mk "seq1" "seq1 demo" ['A', 'C']).seq.length ≤ 3 ∧
      splitOne 3 (SeqRecord.mk "seq1" "seq1 demo" ['A', 'C']) =
        [SeqRecord.mk "seq1" "seq1 demo" ['A', 'C']] :=
  ⟨by decide, splitOne_short_is_noop 3 _ (by decide)⟩

/-- C1: For a sequence of length `L` and window length `w` with
`0 < w < L`, the windower replaces the sequence by exactly `L - w + 1`
windows; the window at 0-based output position `i` (window number `i + 1`)
is the contiguous substring of length `w` starting at position `i`, so the
windows appear in order of increasing start position, and consecutive
windows overlap in `w - 1` characters (the last `w - 1` characters of one
window are the first `w - 1` characters of the next). -/
theorem splitOne_window_count_and_positions (r : SeqRecord) (w : Nat)
    (hw : 0 < w) (hL : w < r.seq.length) :
    (splitOne w r).length = r.seq.length - w + 1 ∧
    (∀ i, i < r.seq.length - w + 1 →
      ∃ win : SeqRecord, (splitOne w r)[i]? = some win ∧
        win.seq = (r.seq.drop i).take w ∧ win.seq.length = w) ∧
    (∀ (i : Nat) (a b : SeqRecord),
      (splitOne w r)[i]? = some a → (splitOne w r)[i + 1]? = some b →
      a.seq.drop 1 = b.seq.take (w - 1)) := by
  have hnot : ¬ r.seq.length ≤ w := not_le.mpr hL
  refine ⟨?_, ?_, ?_⟩
  · simp [splitOne, hnot]
  · intro i hi
    refine ⟨⟨r.id ++ "_" ++ toString (i + 1),
        r.description ++ ", window " ++ toString (i + 1),
        (r.seq.drop i).take w⟩, ?_, rfl, ?_⟩
    · simp [splitOne, hnot, List.getElem?_map, List.getElem?_range, hi]
    · simp only [List.length_take, List.length_drop]
      omega
  · intro i a b ha hb
    have hlen : (splitOne w r).length = r.seq.length - w + 1 := by
      simp [splitOne, hnot]
    have hjb : i + 1 < r.seq.length - w + 1 := by
      by_contra hcon
      rw [List.getElem?_eq_none (by omega)] at hb
      exact Option.noConfusion hb
    have hia : i < r.seq.length - w + 1 := by omega
    simp only [splitOne, hnot, ite_false, List.getElem?_map,
      List.getElem?_range, hia, hjb, Option.map_some'] at ha hb
    have ha2 := Option.some.inj ha
    have hb2 := Option.some.inj hb
    rw [← ha2, ← hb2]
    simp only [List.drop_take, List.drop_drop, List.take_take]
    rw [min_eq_left (by omega : w - 1 ≤ w)]

/-- Witness for C1: the spec's own example, `ACTGAC` with `w = 3`, has
`6 - 3 + 1 = 4` windows and window 2 (0-based position 1) is `CTG`. -/
theorem splitOne_window_count_and_positions_witness :
    0 < 3 ∧
    3 < (SeqRecord.mk "seq1" "seq1" ['A', 'C', 'T', 'G', 'A', 'C']).seq.length ∧
    (splitOne 3 (SeqRecord.mk "seq1" "seq1" ['A', 'C', 'T', 'G', 'A', 'C'])).length = 4 :=
  ⟨by decide, by decide,
    (splitOne_window_count_and_positions
      (SeqRecord.mk "seq1" "seq1" ['A', 'C', 'T', 'G', 'A', 'C']) 3
      (by decide) (by decide)).1⟩

/-- C6: when a source sequence is windowed (its length exceeds `w`), the
window at 0-based output position `i` carries identifier
`<id>_<i+1>` and description `<description>, window <i+1>`: the 1-based
counter starts at 1 for the source sequence (and, `splitFastaSequences`
being a per-record concatenation, restarts for each source sequence), so
the suffix indices are strictly increasing with the position, and the
identifiers of distinct windows of one source sequence are pairwise
distinct. -/
theorem splitOne_window_identifiers (r : SeqRecord) (w : Nat)
    (hL : w < r.seq.length) :
    (∀ i, i < r.seq.length - w + 1 →
      ∃ win : SeqRecord, (splitOne w r)[i]? = some win ∧
        win.id = r.id ++ "_" ++ toString (i + 1) ∧
        win.description = r.description ++ ", window " ++ toString (i + 1)) ∧
    (∀ (i j : Nat) (a b : SeqRecord),
      (splitOne w r)[i]? = some a → (splitOne w r)[j]? = some b →
      i ≠ j → a.id ≠ b.id) := by
  have hnot : ¬ r.seq.length ≤ w := not_le.mpr hL
  have hlen : (splitOne w r).length = r.seq.length - w + 1 := by
    simp [splitOne, hnot]
  constructor
  · intro i hi
    refine ⟨⟨r.id ++ "_" ++ toString (i + 1),
        r.description ++ ", window " ++ toString (i + 1),
        (r.seq.drop i).take w⟩, ?_, rfl, rfl⟩
    simp [splitOne, hnot, List.getElem?_map, List.getElem?_range, hi]
  · intro i j a b ha hb hne
    have hia : i < r.seq.length - w + 1 := by
      by_contra hcon
      rw [List.getElem?_eq_none (by omega)] at ha
      exact Option.noConfusion ha
    have hjb : j < r.seq.length - w + 1 := by
      by_contra hcon
      rw [List.getElem?_eq_none (by omega)] at hb
      exact Option.noConfusion hb
    simp only [splitOne, hnot, ite_false, List.getElem?_map,
      List.getElem?_range, hia, hjb, Option.map_some'] at ha hb
    have ha2 := Option.some.inj ha
    have hb2 := Option.some.inj hb
    intro hid
    rw [← ha2, ← hb2] at hid
    have := append_toString_nat_inj r.id "_" hid
    exact hne (by omega)

/-- Witness for C6 at `ACTGAC`, `w = 3`: window 1 exists and is named
`seq1_1`, with description `seq1 demo, window 1`. -/
theorem splitOne_window_identifiers_witness :
    3 < (SeqRecord.mk "seq1" "seq1 demo" ['A', 'C', 'T', 'G', 'A', 'C']).seq.length ∧
    (0 < (SeqRecord.mk "seq1" "seq1 demo" ['A', 'C', 'T', 'G', 'A', 'C']).seq.length - 3 + 1) ∧
    (∃ win : SeqRecord,
      (splitOne 3 (SeqRecord.mk "seq1" "seq1 demo" ['A', 'C', 'T', 'G', 'A', 'C']))[0]? = some win ∧
      win.id = "seq1" ++ "_" ++ toString (0 + 1) ∧
      win.description = "seq1 demo" ++ ", window " ++ toString (0 + 1)) :=
  ⟨by decide, by decide,
    (splitOne_window_identifiers
      (SeqRecord.mk "seq1" "seq1 demo" ['A', 'C', 'T', 'G', 'A', 'C']) 3
      (by decide)).1 0 (by decide)⟩

/-! ## Result Aggregator (`parse_results`, lines 110-127)

`parse_results` first runs `while results[0].startswith("#"): del results[0]`,
which deletes the leading run of comment lines and raises `IndexError` when
the list runs out (i.e. the input was empty or consisted only of comment
lines).  It then builds `Counter([i.split("\t")[0] for i in results])`.
A `Counter` is exactly the multiset of first fields, so it is embedded as
the list `rest.map firstField`; the count of an identifier is `List.count`
(0 for an identifier that never occurs, as for a missing `Counter` key). -/

/-- Python `line.startswith("#")`: the first character is the comment marker. -/
def startsWithHash (line : String) : Bool := line.data.head? == some '#'

/-- Python `line.split("\t")[0]`: the prefix of the line before the first tab. -/
def firstField (line : String) : String :=
  String.mk (line.data.takeWhile fun c => !(c == '\t'))

/-- The `while results[0].startswith("#"): del results[0]` loop: `none`
models the `IndexError` raised when the list is exhausted before a
non-comment line is found. -/
def stripComments : List String → Option (List String)
  | [] => none
  | l :: ls => if startsWithHash l then stripComments ls else some (l :: ls)

/-- The function `parse_results`: the `Counter` of first fields of the remaining lines,
represented by the list of those first fields (the counter is its
multiset of keys with multiplicities). -/
def parseResults (lines : List String) : Except PyError (List String) :=
  match stripComments lines with
  | none => Except.error PyError.indexError
  | some rest => Except.ok (rest.map firstField)

/-- The count notion asserted by the specification claim about the
aggregator: the number of remaining NON-EMPTY lines whose first
tab-separated field equals the identifier. -/
def claimedCount (rest : List String) (id : String) : Nat :=
  (rest.filter fun l => !(l == "") && (firstField l == id)).length

/-- If every line of the input starts with `#`, the stripping loop
exhausts the list and hits the out-of-bounds index. -/
theorem stripComments_all_comments (lines : List String)
    (h : ∀ l ∈ lines, startsWithHash l = true) : stripComments lines = none := by
  induction lines with
  | nil => rfl
  | cons l ls ih =>
    rw [stripComments, if_pos (h l (List.mem_cons_self l ls))]
    exact ih fun x hx => h x (List.mem_cons_of_mem _ hx)

/-- C2 counterexample: on the raw lines `["# megablast header",
"q1\tsubj", ""]` the comment prefix is dropped, and the empty last line
(always produced by splitting output that ends in a newline) is counted
under the empty identifier: the counter's value at `""` is 1 while the
number of remaining non-empty lines with first field `""` is 0, and the
sum of the counts over the two distinct identifiers is 2 while only 1
non-comment line is non-empty. -/
theorem parseResults_empty_line_cex :
    parseResults ["# megablast header", "q1\tsubj", ""] =
      Except.ok ["q1", ""] ∧
    (["q1", ""] : List String).count "" = 1 ∧
    claimedCount ["q1\tsubj", ""] "" = 0 ∧
    ((["q1", ""] : List String).toFinset.sum
      fun id => (["q1", ""] : List String).count id) = 2 ∧
    ((["q1\tsubj", ""] : List String).filter fun l => !(l == "")).length = 1 := by
  refine ⟨rfl, by decide, by decide, ?_, by decide⟩
  decide

/-- C2 (amended): after the comment prefix is dropped, the count of an
identifier is the number of ALL remaining lines — empty lines included —
whose first tab-separated field equals that identifier (an empty line has
first field `""` and is counted under the empty identifier), and the sum
of the counts over all distinct identifiers equals the number of all
remaining lines, not only the non-empty ones. -/
theorem parseResults_counts (lines rest : List String)
    (h : stripComments lines = some rest) :
    parseResults lines = Except.ok (rest.map firstField) ∧
    (∀ id : String, (rest.map firstField).count id =
      (rest.filter fun l => firstField l == id).length) ∧
    ((rest.map firstField).toFinset.sum
      fun id => (rest.map firstField).count id) = rest.length ∧
    firstField "" = "" := by
  refine ⟨by simp [parseResults, h], ?_, ?_, rfl⟩
  · intro id
    rw [List.count_eq_countP, List.countP_map, List.countP_eq_length_filter]
    rfl
  · have hms := Multiset.toFinset_sum_count_eq (↑(rest.map firstField) : Multiset String)
    simp only [List.toFinset_coe, Multiset.coe_count, Multiset.coe_card] at hms
    rw [hms, List.length_map]

/-- Witness for C2 (amended) at the lines of the counterexample. -/
theorem parseResults_counts_witness :
    stripComments ["# megablast header", "q1\tsubj", ""] =
      some ["q1\tsubj", ""] ∧
    parseResults ["# megablast header", "q1\tsubj", ""] =
      Except.ok ((["q1\tsubj", ""] : List String).map firstField) :=
  ⟨by decide,
    (parseResults_counts ["# megablast header", "q1\tsubj", ""]
      ["q1\tsubj", ""] (by decide)).1⟩

/-- C9: on an input that is empty or made only of comment lines, the
stripping loop indexes past the end of the list: `parse_results` fails
with `IndexError`, which is not the script's `ProgramError` (the only
exception `main` converts into an argparse error), so it propagates
uncaught. -/
theorem parseResults_all_comments (lines : List String)
    (h : ∀ l ∈ lines, startsWithHash l = true) :
    parseResults lines = Except.error PyError.indexError ∧
    PyError.isProgramError PyError.indexError = false := by
  refine ⟨?_, rfl⟩
  rw [parseResults, stripComments_all_comments lines h]

/-- Witness for C9 on a two-line all-comment output. -/
theorem parseResults_all_comments_witness :
    (∀ l ∈ (["# megablast", "# fields: q, s"] : List String),
      startsWithHash l = true) ∧
    (parseResults ["# megablast", "# fields: q, s"] =
        Except.error PyError.indexError ∧
      PyError.isProgramError PyError.indexError = false) :=
  ⟨by decide, parseResults_all_comments ["# megablast", "# fields: q, s"] (by decide)⟩

/-! ## Final Report Generator (`generate_final_output`, lines 85-107)

For each record of the intermediate FASTA file, in file order, one line
`<id>\t<sequence>\t<count>` is printed, where the count is the `Counter`
lookup `results[seq.id]` — a lookup that returns 0 for a missing key,
which is `List.count` on the counter's underlying multiset. -/

/-- The function `generate_final_output`: the list of report lines, one per record of
the intermediate file, in order. -/
def generateFinalOutput (hits : List String) (records : List SeqRecord) :
    List String :=
  records.map fun r =>
    r.id ++ "\t" ++ String.mk r.seq ++ "\t" ++ toString (hits.count r.id)

/-- C3: the final report has exactly one line per record of the
intermediate file, in the file's order; the line for a record is
`<identifier>\t<residue-string>\t<count>` with the count looked up in the
hit counter; and the count is 0 whenever the identifier is absent from
the counter.  In particular every identifier of the intermediate file
appears in the report. -/
theorem generateFinalOutput_lines (hits : List String)
    (records : List SeqRecord) :
    (generateFinalOutput hits records).length = records.length ∧
    (∀ (i : Nat) (r : SeqRecord), records[i]? = some r →
      (generateFinalOutput hits records)[i]? =
        some (r.id ++ "\t" ++ String.mk r.seq ++ "\t" ++
          toString (hits.count r.id))) ∧
    (∀ r : SeqRecord, r.id ∉ hits → hits.count r.id = 0) := by
  refine ⟨by simp [generateFinalOutput], ?_, ?_⟩
  · intro i r hr
    simp [generateFinalOutput, List.getElem?_map, hr]
  · intro r hr
    exact List.count_eq_zero.mpr hr

/-- Witness for C3 on the spec's end-to-end example: record `seq1_2`
(= `CTG`) with two hits reports count 2. -/
theorem generateFinalOutput_lines_witness :
    ([SeqRecord.mk "seq1_2" "d" ['C', 'T', 'G']] :
        List SeqRecord)[0]? = some (SeqRecord.mk "seq1_2" "d" ['C', 'T', 'G']) ∧
    (generateFinalOutput ["seq1_2", "seq1_2"]
        [SeqRecord.mk "seq1_2" "d" ['C', 'T', 'G']])[0]? =
      some ("seq1_2" ++ "\t" ++ String.mk ['C', 'T', 'G'] ++ "\t" ++
        toString ((["seq1_2", "seq1_2"] : List String).count "seq1_2")) :=
  ⟨by decide,
    (generateFinalOutput_lines ["seq1_2", "seq1_2"]
      [SeqRecord.mk "seq1_2" "d" ['C', 'T', 'G']]).2.1 0
      (SeqRecord.mk "seq1_2" "d" ['C', 'T', 'G']) (by decide)⟩

/-! ## Search Invoker (`run_megablast`, lines 130-182)

The captured standard output (a byte/character stream) is split on
newlines with python `output.split("\n")`, each resulting line is written
to `megablast_results.txt` by `print >>o_file, line` — which appends a
newline after EVERY line — and the same line list is returned.  The
command handed to `check_output` is a literal argument vector in which
`"-D 3"` is one single element. -/

/-- Python `output.split("\n")`: the maximal split on the newline
character; on `""` it yields `[""]`, and a trailing newline yields a
final empty piece. -/
def pySplitNl : List Char → List (List Char)
  | [] => [[]]
  | c :: cs =>
    if c = '\n' then [] :: pySplitNl cs
    else
      match pySplitNl cs with
      | [] => [[c]]
      | l :: ls => (c :: l) :: ls

/-- The line list `run_megablast` returns to its caller. -/
def runMegablastLines (output : List Char) : List (List Char) :=
  pySplitNl output

/-- The content written to `megablast_results.txt`: every returned line
followed by the newline that `print` appends. -/
def megablastResultsFileContent (output : List Char) : List Char :=
  ((pySplitNl output).map fun l => l ++ ['\n']).flatten

/-- The argument vector handed to `check_output` (lines 147-152); note
the single element `"-D 3"`. -/
def megablastArgv (database sequenceFile : String)
    (wordSize minimalHitScore : Int) : List String :=
  ["megablast", "-d", database, "-i", sequenceFile, "-D 3", "-W",
    toString wordSize, "-s", toString minimalHitScore]

theorem pySplitNl_ne_nil (s : List Char) : pySplitNl s ≠ [] := by
  cases s with
  | nil => simp [pySplitNl]
  | cons c cs =>
    rw [pySplitNl]
    by_cases h : c = '\n'
    · simp [h]
    · simp only [h, ite_false]
      cases pySplitNl cs <;> simp

/-- C7 counterexample: for captured output `"a"` (no trailing newline)
the persisted file is `"a\n"`, which differs from the captured output —
the file is not byte-for-byte identical. -/
theorem megablastResultsFile_not_verbatim_cex :
    megablastResultsFileContent ['a'] = ['a', '\n'] ∧
    megablastResultsFileContent ['a'] ≠ ['a'] := by
  constructor <;> decide

/-- C7 (amended): the persisted `megablast_results.txt` is the captured
standard output plus exactly one extra trailing newline (every returned
line is written with a newline terminator), and the line sequence
returned to the caller is exactly the line sequence written to the
file. -/
theorem megablastResultsFile_output_newline (output : List Char) :
    megablastResultsFileContent output = output ++ ['\n'] ∧
    megablastResultsFileContent output =
      ((runMegablastLines output).map fun l => l ++ ['\n']).flatten := by
  refine ⟨?_, rfl⟩
  induction output with
  | nil => rfl
  | cons c cs ih =>
    by_cases h : c = '\n'
    · subst h
      have hcons : pySplitNl ('\n' :: cs) = [] :: pySplitNl cs := by
        rw [pySplitNl, if_pos rfl]
      simp only [megablastResultsFileContent, hcons, List.map_cons,
        List.flatten_cons, List.nil_append] at ih ⊢
      rw [ih]
      rfl
    · cases hsplit : pySplitNl cs with
      | nil => exact absurd hsplit (pySplitNl_ne_nil cs)
      | cons l ls =>
        simp only [megablastResultsFileContent, pySplitNl, h, ite_false,
          hsplit, List.map_cons, List.flatten_cons] at ih ⊢
        rw [List.cons_append c cs ['\n'], ← ih]
        simp

/-- C8 counterexample: in the vector actually passed to `check_output`
the flag `-D` and its value `3` are NOT separate arguments: element 5 is
the single string `"-D 3"` and the vector has 10 elements, not the 11 of
the claimed fully-separated form. -/
theorem megablastArgv_fused_cex :
    (megablastArgv "db" "in.fasta" 10 17)[5]? = some "-D 3" ∧
    (megablastArgv "db" "in.fasta" 10 17).length = 10 ∧
    megablastArgv "db" "in.fasta" 10 17 ≠
      ["megablast", "-d", "db", "-i", "in.fasta", "-D", "3", "-W", "10",
        "-s", "17"] := by
  refine ⟨by decide, by decide, by decide⟩

/-- C8 (amended): the tool is invoked with exactly the argument vector
`[<tool>, -d, <database>, -i, <sequence_file>, "-D 3", -W, <word_size>,
-s, <minimal_hit_score>]`: every flag and value is its own argument
except `-D` and its value `3`, which are fused into the single argument
`"-D 3"`; the word size and minimal hit score are rendered as decimal
strings. -/
theorem megablastArgv_shape (database sequenceFile : String)
    (wordSize minimalHitScore : Int) :
    megablastArgv database sequenceFile wordSize minimalHitScore =
      ["megablast", "-d", database, "-i", sequenceFile, "-D 3", "-W",
        toString wordSize, "-s", toString minimalHitScore] ∧
    (megablastArgv database sequenceFile wordSize minimalHitScore).length
      = 10 :=
  ⟨rfl, rfl⟩

/-! ## Argument checking and the main pipeline
(`check_args`, lines 221-245, and `main`, lines 38-82)

`check_args` raises `ProgramError` when the input path is not a file and,
ONLY when the `--window` flag is set, when the window length is negative;
every other path returns `True`.  `main` then either calls
`split_fasta_sequences` (window set) or copies the input file
byte-for-byte to `megablast_input.fasta` (window not set). -/

/-- The function `check_args` over the data it inspects: whether the input path is an
existing file, the input path, the `--window` flag and the window
length. -/
def checkArgs (inputIsFile : Bool) (input : String) (window : Bool)
    (windowLength : Int) : Except PyError Bool :=
  if !inputIsFile then
    Except.error (PyError.programError (input ++ ": no such file"))
  else if window then
    if windowLength < 0 then
      Except.error (PyError.programError
        ("window size: invalid value " ++ toString windowLength))
    else Except.ok true
  else Except.ok true

/-- The intermediate `megablast_input.fasta` as produced by `main`:
either a byte-for-byte copy of the input file (`shutil.copyfile`) or the
windowed record list written by `split_fasta_sequences`. -/
inductive SequenceFilePrep where
  | copied (content : List Char)
  | windowed (records : List SeqRecord)
deriving DecidableEq, Repr

/-- The `if args.window: split ... else: copy` step of `main` (lines
57-66).  `split_fasta_sequences` is only reached after `check_args` has
ruled out a negative window length, so the `Int` window length is passed
on as the `Nat` it then is. -/
def prepareSequenceFile (window : Bool) (windowLength : Int)
    (inputContent : List Char) (inputRecords : List SeqRecord) :
    SequenceFilePrep :=
  if window then
    SequenceFilePrep.windowed
      (splitFastaSequences windowLength.toNat inputRecords)
  else SequenceFilePrep.copied inputContent

/-- C4 counterexample: with the `--window` flag set, a window length of
`0` passes validation (`check_args` returns `True` instead of aborting),
and the windower then runs: on a record of length 2 it produces 3
(empty) windows rather than never being invoked. -/
theorem checkArgs_zero_window_cex :
    checkArgs true "input.fasta" true 0 = Except.ok true ∧
    (splitOne 0 (SeqRecord.mk "s" "s" ['A', 'C'])).length = 3 := by
  refine ⟨rfl, by decide⟩

/-- C4 (amended): with the `--window` flag set, argument validation
rejects exactly the negative window lengths with a `ProgramError` raised
before the windower runs; `w = 0` (and any non-negative `w`) is
accepted. -/
theorem checkArgs_window_validation (windowLength : Int) (input : String) :
    (windowLength < 0 →
      checkArgs true input true windowLength =
        Except.error (PyError.programError
          ("window size: invalid value " ++ toString windowLength))) ∧
    (0 ≤ windowLength →
      checkArgs true input true windowLength = Except.ok true) := by
  constructor
  · intro h
    simp [checkArgs, h]
  · intro h
    simp [checkArgs, not_lt.mpr h]

/-- Witness for C4 (amended) at window length `-1`. -/
theorem checkArgs_window_validation_witness :
    (-1 : Int) < 0 ∧
    checkArgs true "in.fasta" true (-1) =
      Except.error (PyError.programError
        ("window size: invalid value " ++ toString (-1 : Int))) :=
  ⟨by decide, (checkArgs_window_validation (-1) "in.fasta").1 (by decide)⟩

/-- C10: when the `--window` flag is not set, `check_args` accepts any
window length (the negativity check is inside `if args.window:`), and
`main` takes the copy branch: the windower is never invoked and
`megablast_input.fasta` is a byte-for-byte copy of the input file. -/
theorem no_window_skips_validation_and_copies (windowLength : Int)
    (input : String) (content : List Char) (records : List SeqRecord) :
    checkArgs true input false windowLength = Except.ok true ∧
    prepareSequenceFile false windowLength content records =
      SequenceFilePrep.copied content :=
  ⟨rfl, rfl⟩

end Pymegablast
